import Mathlib

/-!
# Verification of the Audiolize audio-analysis core

A shallow embedding of the Audiolize repository's spectrum-analysis and
audio-driver code, together with proofs about the embedded definitions.

Sources embedded:
* `src/fft/fft.c` — the frequency-band table, the analyzer worker loop
  (`audiolize_fft_thread_cb`): downmix, band mapping with max-pooling,
  decimation counter, and the cancellation check; the render smoothing
  step (`audiolize_fft_render`) and the smoothing divisor `fps_diff`
  (`audiolize_fft_setup`).
* `src/audio-driver/audio-driver.c` — device selection
  (`audio_driver_set_selected_device`) and stream lifecycle
  (`audio_driver_open_stream`, `audio_driver_close_stream`).

Real (double) arithmetic of the C code is modelled exactly over `ℚ`;
machine `int` values are `ℤ`, the `unsigned int` decimation counter is a
`ℕ` reduced mod `2 ^ 32`.  The FFT itself (`fftw_execute`) and the
magnitude step are an opaque parameter `spectrum`: every claim below is
about the surrounding deterministic code, quantified over the magnitudes
the transform may produce.
-/

set_option maxRecDepth 100000

namespace Audiolize

/-- `#define FREQUENCIES (7)` in fft.c. -/
def FREQUENCIES : ℕ := 7

/-- `#define FRAMES_PER_BUFFER (256)` in audio-driver.h. -/
def FRAMES_PER_BUFFER : ℕ := 256

/-- `#define NYQUIST_BIN (FRAMES_PER_BUFFER / 2)` in fft.c. -/
def NYQUIST_BIN : ℕ := FRAMES_PER_BUFFER / 2

/-- `#define SKIP_SAMPLES (4)` in fft.c. -/
def SKIP_SAMPLES : ℕ := 4

/-- `#define FPS (60)` in fft.c. -/
def FPS : ℕ := 60

/-- `#define RING_BUFFER_SIZE (4)` in audio-driver.h. -/
def RING_BUFFER_SIZE : ℕ := 4

/-- `const unsigned int FREQUENCY_RANGES[FREQUENCIES]` in fft.c. -/
def FREQUENCY_RANGES : List ℕ := [60, 150, 400, 1000, 2400, 6000, 14000]

/-- Bin index of a boundary frequency: the C code computes
`(int)floor(f * fs_n)` with `fs_n = (double)FRAMES_PER_BUFFER / sample_rate`;
over exact arithmetic this is natural-number division `f * 256 / sr`. -/
def binIndex (sample_rate f : ℕ) : ℕ := f * FRAMES_PER_BUFFER / sample_rate

/-- The bins visited by one inner band loop of `audiolize_fft_thread_cb`:
`for (j = low_bin + 1; j <= high_bin; j++)`. -/
def bandScan (low_bin high_bin : ℕ) : List ℕ :=
  List.range' (low_bin + 1) (high_bin - low_bin)

/-- The bins visited by the final band loop of `audiolize_fft_thread_cb`:
`for (j = low_bin + 1; j < NYQUIST_BIN; j++)`. -/
def lastBandScan (low_bin : ℕ) : List ℕ :=
  List.range' (low_bin + 1) (NYQUIST_BIN - (low_bin + 1))

/-- One band loop body: `max_amplitude = 0;` then
`if (mapped_samples[j] > max_amplitude) max_amplitude = mapped_samples[j];`
over the scanned bins. -/
def maxAmplitude (mag : ℕ → ℚ) (bins : List ℕ) : ℚ :=
  bins.foldl (fun acc j => if mag j > acc then mag j else acc) 0

/-- The scanned bin lists of the `FREQUENCIES - 1` inner bands, one per
consecutive pair of the boundary table (the loop
`for (i = 1; i < FREQUENCIES; i++)` carries `last_frequency =
FREQUENCY_RANGES[i-1]`). -/
def innerScans (sample_rate : ℕ) : List (List ℕ) :=
  (List.range (FREQUENCIES - 1)).map fun k =>
    bandScan (binIndex sample_rate (FREQUENCY_RANGES.getD k 0))
             (binIndex sample_rate (FREQUENCY_RANGES.getD (k + 1) 0))

/-- The `output[FREQUENCIES]` array produced by one processed frame of
`audiolize_fft_thread_cb` from the per-bin magnitudes `mag`
(`mapped_samples` in the C code): the inner-band maxima in table order,
then the final band up to (excluding) `NYQUIST_BIN`. -/
def fft_band_output (sample_rate : ℕ) (mag : ℕ → ℚ) : List ℚ :=
  (innerScans sample_rate).map (maxAmplitude mag) ++
    [maxAmplitude mag
      (lastBandScan (binIndex sample_rate (FREQUENCY_RANGES.getD (FREQUENCIES - 1) 0)))]

/-- Every magnitude-array index read by the band-mapping loops of one
processed frame. -/
def accessedBins (sample_rate : ℕ) : List ℕ :=
  (innerScans sample_rate).flatten ++
    lastBandScan (binIndex sample_rate (FREQUENCY_RANGES.getD (FREQUENCIES - 1) 0))

/-- The `samples` array built by the downmix loop of
`audiolize_fft_thread_cb`:
`double sample = (double)(self->input_data[i * 2]); sample /= 2;`
(`input_data` is the interleaved stereo frame; only index `i * 2`,
the left channel, is read — the right-channel term is commented out). -/
def samples (input_data : ℕ → ℚ) : List ℚ :=
  (List.range FRAMES_PER_BUFFER).map fun i => input_data (i * 2) / 2

/-- The downmix described by the claim (averaging both interleaved
channels); stated from the spec's words, for comparison with `samples`. -/
def samples_spec (input_data : ℕ → ℚ) : List ℚ :=
  (List.range FRAMES_PER_BUFFER).map fun i =>
    (input_data (i * 2) + input_data (i * 2 + 1)) / 2

/-- State of the decimation counter of `audiolize_fft_thread_cb` after a
number of successful ring-buffer reads: the `unsigned int counter`
(wrapping mod `2 ^ 32`) and the number of frames that reached the
processing path, i.e. for which `(++counter % SKIP_SAMPLES) != 0` was
false. -/
def fft_reads : ℕ → ℕ × ℕ
  | 0 => (0, 0)
  | k + 1 =>
    let s := fft_reads k
    let c := (s.1 + 1) % 2 ^ 32
    if c % SKIP_SAMPLES ≠ 0 then (c, s.2) else (c, s.2 + 1)

/-- C truncation of a `double` to `int` (rounds toward zero), applied to an
exact rational: `Int.tdiv` is truncating division. -/
def ratTrunc (q : ℚ) : ℤ := q.num.tdiv q.den

/-- `fps_diff` as computed in `audiolize_fft_setup`:
`audio_hz = ((double)FRAMES_PER_BUFFER/(double)sample_rate)*SKIP_SAMPLES;`
`self->fps_diff = audio_hz*FPS;`. -/
def fps_diff (sample_rate : ℕ) : ℚ :=
  ((FRAMES_PER_BUFFER : ℚ) / (sample_rate : ℚ)) * (SKIP_SAMPLES : ℚ) * (FPS : ℚ)

/-- One smoothing update of a bar in `audiolize_fft_render`:
`int bar_height = current_bar_heights[i];`
`double bar_diff = self->bar_heights[i] - bar_height;`
`bar_diff /= self->fps_diff; bar_height += bar_diff;`
— the final `int += double` truncates the sum toward zero. -/
def render_step (fd : ℚ) (target : ℤ) (current : ℤ) : ℤ :=
  ratTrunc ((current : ℚ) + (((target : ℚ) - (current : ℚ)) / fd))

/-- State seen by the analyzer worker loop of `audiolize_fft_thread_cb`:
the decimation counter, the input frame queue (each frame a function from
interleaved sample index to value) and the output band-vector queue. -/
structure FFTLoopState where
  counter : ℕ
  input_queue : List (ℕ → ℚ)
  out_queue : List (List ℚ)

/-- One iteration of the `while (true)` loop of `audiolize_fft_thread_cb`.
`none` means the loop exited via the cancellation `break`.  `spectrum`
abstracts `fftw_execute` plus the per-bin magnitude computation
(`sqrt(re² + im²) / FRAMES_PER_BUFFER`), mapping the downmixed samples to
per-bin magnitudes. -/
def fft_loop_step (spectrum : List ℚ → ℕ → ℚ) (sample_rate : ℕ)
    (cancelled : Bool) (s : FFTLoopState) : Option FFTLoopState :=
  if cancelled then none
  else some <|
    match s.input_queue with
    | [] => s
    | frame :: rest =>
      let c := (s.counter + 1) % 2 ^ 32
      if c % SKIP_SAMPLES ≠ 0 then { s with counter := c, input_queue := rest }
      else
        let out := fft_band_output sample_rate (spectrum (samples frame))
        { counter := c
          input_queue := rest
          out_queue :=
            if s.out_queue.length < RING_BUFFER_SIZE then s.out_queue ++ [out]
            else s.out_queue }

/-- Run the worker loop for a number of iterations under a cancellation
schedule (`cancel n` is the value `g_cancellable_is_cancelled` returns at
the top of iteration `n`); `none` means the loop has exited. -/
def fft_loop_run (spectrum : List ℚ → ℕ → ℚ) (sample_rate : ℕ)
    (cancel : ℕ → Bool) (s : FFTLoopState) : ℕ → Option FFTLoopState
  | 0 => some s
  | n + 1 =>
    match fft_loop_run spectrum sample_rate cancel s n with
    | none => none
    | some s' => fft_loop_step spectrum sample_rate (cancel n) s'

/-- State of the `AudioDriver` struct relevant to device selection and the
stream lifecycle.  A device pointer `devices[i]` is modelled by its index
`i`; `stream` is `none` when the `PaStream *` field is `NULL`, and
otherwise records the device index the stream was opened against and
whether `Pa_StartStream` succeeded on it. -/
structure AudioDriverState where
  num_devices : ℤ
  selected_index : ℤ
  selected_device : ℤ
  stream : Option (ℤ × Bool)
deriving DecidableEq

/-- Responses of the PortAudio backend, by device index: `none` is
`paNoError`, `some e` a failure with error text `e`. -/
structure PaBackend where
  open_err : ℤ → Option String
  start_err : ℤ → Option String

/-- `audio_driver_close_stream`: stops and closes the active stream and
nulls the pointer; no-op when no stream is open. -/
def audio_driver_close_stream (s : AudioDriverState) : AudioDriverState :=
  match s.stream with
  | none => s
  | some _ => { s with stream := none }

/-- `audio_driver_open_stream`: closes a previously open stream, then
calls `Pa_OpenStream` and — unconditionally, even when the open failed —
`Pa_StartStream`.  Neither failure rolls the `stream` field back; the
returned list collects the `fprintf(stderr, ...)` reports (a start on the
null stream left by a failed open is itself a backend failure). -/
def audio_driver_open_stream (b : PaBackend) (s : AudioDriverState) :
    AudioDriverState × List String :=
  let s1 := match s.stream with
    | none => s
    | some _ => audio_driver_close_stream s
  match b.open_err s1.selected_index with
  | some e =>
    (s1, ["ERROR: Could not open PortAudio input stream: " ++ e,
          "ERROR: Could not start PortAudio input stream: Invalid stream pointer"])
  | none =>
    let s2 := { s1 with stream := some (s1.selected_index, false) }
    match b.start_err s1.selected_index with
    | some e => (s2, ["ERROR: Could not start PortAudio input stream: " ++ e])
    | none => ({ s2 with stream := some (s1.selected_index, true) }, [])

/-- Outcome of `audio_driver_set_selected_device`. -/
inductive SetDeviceOutcome
  | out_of_range
  | device_changed
deriving DecidableEq

/-- `audio_driver_set_selected_device`: the guard is
`if (device_index >= audio_driver->num_devices)` (no lower-bound check);
past the guard it updates `selected_index` and `selected_device`, closes
the current stream and re-opens against the new device. -/
def audio_driver_set_selected_device (b : PaBackend) (s : AudioDriverState)
    (device_index : ℤ) : SetDeviceOutcome × AudioDriverState × List String :=
  if s.num_devices ≤ device_index then
    (.out_of_range, s, ["ERROR: Device index is out of range!"])
  else
    let s1 := { s with selected_index := device_index,
                       selected_device := device_index }
    let s2 := audio_driver_close_stream s1
    let (s3, reps) := audio_driver_open_stream b s2
    (.device_changed, s3, reps)

/-- Concrete stereo input frame refuting the averaging downmix: right
channel of position 0 is `2`, everything else `0`. -/
def inpC3 : ℕ → ℚ := fun j => if j = 1 then 2 else 0

/-- Concrete magnitudes refuting the claimed low/high terminal band
coverage: amplitude `100` exactly at bin `0` and bin `NYQUIST_BIN`. -/
def magC2 : ℕ → ℚ := fun j => if j = 0 ∨ j = NYQUIST_BIN then 100 else 0

/-! ## Helper lemmas about the band-maximum fold -/

theorem maxAmplitude_cons (mag : ℕ → ℚ) (j : ℕ) (l : List ℕ) (acc : ℚ) :
    (j :: l).foldl (fun acc j => if mag j > acc then mag j else acc) acc =
      l.foldl (fun acc j => if mag j > acc then mag j else acc) (max acc (mag j)) := by
  simp only [List.foldl_cons]
  congr 1
  rcases lt_or_le acc (mag j) with h | h
  · rw [if_pos h, max_eq_right h.le]
  · rw [if_neg (not_lt.mpr h), max_eq_left h]

theorem foldl_max_le_acc (mag : ℕ → ℚ) :
    ∀ (l : List ℕ) (acc : ℚ),
      acc ≤ l.foldl (fun acc j => if mag j > acc then mag j else acc) acc
  | [], _ => le_refl _
  | j :: l, acc => by
    rw [maxAmplitude_cons]
    exact le_trans (le_max_left _ _) (foldl_max_le_acc mag l _)

theorem foldl_max_mem_le (mag : ℕ → ℚ) :
    ∀ (l : List ℕ) (acc : ℚ) (j : ℕ), j ∈ l →
      mag j ≤ l.foldl (fun acc j => if mag j > acc then mag j else acc) acc
  | i :: l, acc, j, hj => by
    rw [maxAmplitude_cons]
    rcases List.mem_cons.mp hj with rfl | hj
    · exact le_trans (le_max_right _ _) (foldl_max_le_acc mag l _)
    · exact foldl_max_mem_le mag l _ j hj

theorem foldl_max_eq_acc_or_mem (mag : ℕ → ℚ) :
    ∀ (l : List ℕ) (acc : ℚ),
      l.foldl (fun acc j => if mag j > acc then mag j else acc) acc = acc ∨
        ∃ j ∈ l, l.foldl (fun acc j => if mag j > acc then mag j else acc) acc = mag j
  | [], _ => Or.inl rfl
  | i :: l, acc => by
    rw [maxAmplitude_cons]
    rcases foldl_max_eq_acc_or_mem mag l (max acc (mag i)) with h | ⟨j, hj, h⟩
    · rcases max_choice acc (mag i) with hm | hm
      · exact Or.inl (h.trans hm)
      · exact Or.inr ⟨i, List.mem_cons_self i l, h.trans hm⟩
    · exact Or.inr ⟨j, List.mem_cons_of_mem i hj, h⟩

/-- Every scanned magnitude is bounded by the band value. -/
theorem maxAmplitude_is_upper (mag : ℕ → ℚ) (l : List ℕ) (j : ℕ) (hj : j ∈ l) :
    mag j ≤ maxAmplitude mag l :=
  foldl_max_mem_le mag l 0 j hj

/-- For nonnegative magnitudes and a nonempty scan, the band value is
attained at some scanned bin, so it is precisely the maximum. -/
theorem maxAmplitude_attained (mag : ℕ → ℚ) (hnn : ∀ i, 0 ≤ mag i)
    (l : List ℕ) (hne : l ≠ []) :
    ∃ j ∈ l, maxAmplitude mag l = mag j := by
  rcases foldl_max_eq_acc_or_mem mag l 0 with h | h
  · match l, hne with
    | i :: l, _ =>
      refine ⟨i, List.mem_cons_self i l, le_antisymm ?_ ?_⟩
      · exact h.le.trans (hnn i)
      · exact maxAmplitude_is_upper mag _ i (List.mem_cons_self i l)
  · exact h

theorem maxAmplitude_nonneg (mag : ℕ → ℚ) (l : List ℕ) : 0 ≤ maxAmplitude mag l :=
  foldl_max_le_acc mag l 0

/-! ## Structure of the scanned bins -/

theorem binIndex_mono (sr : ℕ) {f g : ℕ} (h : f ≤ g) :
    binIndex sr f ≤ binIndex sr g :=
  Nat.div_le_div_right (Nat.mul_le_mul_right _ h)

theorem mem_bandScan {lo hi j : ℕ} : j ∈ bandScan lo hi ↔ lo < j ∧ j ≤ hi := by
  rw [bandScan, List.mem_range'_1]
  omega

theorem mem_lastBandScan {lo j : ℕ} : j ∈ lastBandScan lo ↔ lo < j ∧ j < NYQUIST_BIN := by
  rw [lastBandScan, List.mem_range'_1]
  have : NYQUIST_BIN = 128 := rfl
  omega

/-- Characterization of all bins read by the band-mapping loops: exactly
the bins strictly above the first boundary's bin that lie under the last
boundary's bin or under `NYQUIST_BIN`. -/
theorem mem_accessedBins (sr j : ℕ) :
    j ∈ accessedBins sr ↔
      binIndex sr 60 < j ∧ (j ≤ binIndex sr 14000 ∨ j < NYQUIST_BIN) := by
  have h01 : binIndex sr 60 ≤ binIndex sr 150 := binIndex_mono sr (by norm_num)
  have h12 : binIndex sr 150 ≤ binIndex sr 400 := binIndex_mono sr (by norm_num)
  have h23 : binIndex sr 400 ≤ binIndex sr 1000 := binIndex_mono sr (by norm_num)
  have h34 : binIndex sr 1000 ≤ binIndex sr 2400 := binIndex_mono sr (by norm_num)
  have h45 : binIndex sr 2400 ≤ binIndex sr 6000 := binIndex_mono sr (by norm_num)
  have h56 : binIndex sr 6000 ≤ binIndex sr 14000 := binIndex_mono sr (by norm_num)
  have hrange : List.range 6 = [0, 1, 2, 3, 4, 5] := by decide
  have hg0 : FREQUENCY_RANGES.getD 0 0 = 60 := rfl
  have hg1 : FREQUENCY_RANGES.getD 1 0 = 150 := rfl
  have hg2 : FREQUENCY_RANGES.getD 2 0 = 400 := rfl
  have hg3 : FREQUENCY_RANGES.getD 3 0 = 1000 := rfl
  have hg4 : FREQUENCY_RANGES.getD 4 0 = 2400 := rfl
  have hg5 : FREQUENCY_RANGES.getD 5 0 = 6000 := rfl
  have hg6 : FREQUENCY_RANGES.getD 6 0 = 14000 := rfl
  have hF : FREQUENCIES - 1 = 6 := rfl
  rw [accessedBins, List.mem_append, List.mem_flatten]
  simp only [innerScans, hF, hrange, List.map_cons, List.map_nil, List.mem_cons,
    List.not_mem_nil, or_false, Nat.reduceAdd, hg0, hg1, hg2, hg3, hg4, hg5, hg6,
    or_and_right, exists_or, exists_eq_left, mem_bandScan, mem_lastBandScan]
  omega

/-- The band-output list written out band by band. -/
theorem fft_band_output_eq (sr : ℕ) (mag : ℕ → ℚ) :
    fft_band_output sr mag =
      [maxAmplitude mag (bandScan (binIndex sr 60) (binIndex sr 150)),
       maxAmplitude mag (bandScan (binIndex sr 150) (binIndex sr 400)),
       maxAmplitude mag (bandScan (binIndex sr 400) (binIndex sr 1000)),
       maxAmplitude mag (bandScan (binIndex sr 1000) (binIndex sr 2400)),
       maxAmplitude mag (bandScan (binIndex sr 2400) (binIndex sr 6000)),
       maxAmplitude mag (bandScan (binIndex sr 6000) (binIndex sr 14000)),
       maxAmplitude mag (lastBandScan (binIndex sr 14000))] := rfl

theorem bandScan_ne_nil {lo hi : ℕ} (h : lo < hi) : bandScan lo hi ≠ [] := by
  intro hnil
  have : lo + 1 ∈ bandScan lo hi := mem_bandScan.mpr ⟨Nat.lt_succ_self lo, h⟩
  rw [hnil] at this
  exact List.not_mem_nil _ this

/-- A nonempty inner-band scan computes exactly the maximum of the
magnitudes over bins `lo + 1 .. hi`. -/
theorem inner_band_spec (mag : ℕ → ℚ) (hnn : ∀ i, 0 ≤ mag i)
    (lo hi : ℕ) (hlt : lo < hi) :
    (∀ j, lo < j → j ≤ hi → mag j ≤ maxAmplitude mag (bandScan lo hi)) ∧
      (∃ j, lo < j ∧ j ≤ hi ∧ maxAmplitude mag (bandScan lo hi) = mag j) := by
  constructor
  · intro j h1 h2
    exact maxAmplitude_is_upper mag _ j (mem_bandScan.mpr ⟨h1, h2⟩)
  · obtain ⟨j, hj, he⟩ := maxAmplitude_attained mag hnn _ (bandScan_ne_nil hlt)
    rw [mem_bandScan] at hj
    exact ⟨j, hj.1, hj.2, he⟩

theorem fft_reads_eq (k : ℕ) : fft_reads k = (k % 2 ^ 32, k / SKIP_SAMPLES) := by
  induction k with
  | zero => rfl
  | succ k ih =>
    rw [fft_reads, ih]
    simp only [SKIP_SAMPLES]
    split_ifs with h <;> (simp only [Prod.mk.injEq]; constructor <;> omega)

theorem freq_ranges_ascending : List.Chain' (· < ·) FREQUENCY_RANGES := by
  rw [FREQUENCY_RANGES]
  simp only [List.chain'_cons, List.chain'_singleton, and_true]
  norm_num

/-! ## Claim theorems -/

/-- C1: for every processed frame (any nonnegative per-bin magnitudes the
transform may produce) and every consecutive boundary pair
`f[i-1], f[i]` whose bin range is nonempty, the emitted band value at
position `i-1` is exactly the maximum magnitude over bins
`low_bin + 1 .. high_bin` (an upper bound that is attained), and the
boundary table is strictly ascending, so the outputs are in ascending
frequency order. -/
theorem fft_inner_band_max_pooling (sr : ℕ) (mag : ℕ → ℚ) (i : ℕ)
    (hnn : ∀ j, 0 ≤ mag j) (h1 : 1 ≤ i) (h2 : i < FREQUENCIES)
    (hne : binIndex sr (FREQUENCY_RANGES.getD (i - 1) 0) <
      binIndex sr (FREQUENCY_RANGES.getD i 0)) :
    (∀ j, binIndex sr (FREQUENCY_RANGES.getD (i - 1) 0) < j →
        j ≤ binIndex sr (FREQUENCY_RANGES.getD i 0) →
        mag j ≤ (fft_band_output sr mag).getD (i - 1) 0) ∧
      (∃ j, binIndex sr (FREQUENCY_RANGES.getD (i - 1) 0) < j ∧
          j ≤ binIndex sr (FREQUENCY_RANGES.getD i 0) ∧
          (fft_band_output sr mag).getD (i - 1) 0 = mag j) ∧
      List.Chain' (· < ·) FREQUENCY_RANGES := by
  have hF : FREQUENCIES = 7 := rfl
  rw [hF] at h2
  interval_cases i <;>
    exact ⟨(inner_band_spec mag hnn _ _ hne).1, (inner_band_spec mag hnn _ _ hne).2,
      freq_ranges_ascending⟩

/-- C1 witness: sample rate 44100, magnitudes `mag j = j`, band pair
`(150, 400)` (bins 1..2). -/
theorem fft_inner_band_max_pooling_witness :
    (1 ≤ 2 ∧ 2 < FREQUENCIES ∧
      binIndex 44100 (FREQUENCY_RANGES.getD 1 0) <
        binIndex 44100 (FREQUENCY_RANGES.getD 2 0)) ∧
    ((∀ j, binIndex 44100 (FREQUENCY_RANGES.getD 1 0) < j →
        j ≤ binIndex 44100 (FREQUENCY_RANGES.getD 2 0) →
        ((j : ℚ)) ≤ (fft_band_output 44100 (fun j => (j : ℚ))).getD 1 0) ∧
      (∃ j, binIndex 44100 (FREQUENCY_RANGES.getD 1 0) < j ∧
          j ≤ binIndex 44100 (FREQUENCY_RANGES.getD 2 0) ∧
          (fft_band_output 44100 (fun j => (j : ℚ))).getD 1 0 = (j : ℚ)) ∧
      List.Chain' (· < ·) FREQUENCY_RANGES) :=
  ⟨⟨by decide, by decide, by decide⟩,
    fft_inner_band_max_pooling 44100 (fun j => (j : ℚ)) 2
      (fun j => Nat.cast_nonneg j) (by decide) (by decide) (by decide)⟩

/-- C2 counterexample: at sample rate 44100 put amplitude 100 exactly at
bin 0 and at bin `NYQUIST_BIN`.  The claimed low-side terminal band
`[0, boundary[0]]` and the claimed inclusion of bin `NYQUIST_BIN` in the
high-side band would make some output entry reflect the value 100, but
every emitted band value is 0: neither bin belongs to any band. -/
theorem fft_terminal_band_coverage_cx :
    magC2 0 = 100 ∧ magC2 NYQUIST_BIN = 100 ∧
      fft_band_output 44100 magC2 = [0, 0, 0, 0, 0, 0, 0] := by decide

/-- C2 (amended): the `B = FREQUENCIES` boundary table yields `B` output
bands: `B - 1` inner bands plus a single high-side terminal band, and the
union of all scanned bins is exactly
`{ j | bin(boundary[0]) < j and (j ≤ bin(boundary[B-1]) or j < NYQUIST_BIN) }`
— there is no low-side terminal band (bins `0 .. bin(boundary[0])` are
covered by no band) and the high-side band stops strictly below
`NYQUIST_BIN`. -/
theorem fft_band_structure (sr : ℕ) (mag : ℕ → ℚ) (j : ℕ) :
    (fft_band_output sr mag).length = FREQUENCIES ∧
      (j ∈ accessedBins sr ↔
        binIndex sr (FREQUENCY_RANGES.getD 0 0) < j ∧
          (j ≤ binIndex sr (FREQUENCY_RANGES.getD (FREQUENCIES - 1) 0) ∨
            j < NYQUIST_BIN)) :=
  ⟨by rw [fft_band_output_eq]; rfl, mem_accessedBins sr j⟩

/-- C5: the decimation counter of the worker loop processes exactly every
`SKIP_SAMPLES`-th successfully read frame: after `k` reads exactly
`k / SKIP_SAMPLES` frames were processed, and each further run of
`SKIP_SAMPLES` consecutive reads processes exactly one more frame, with
the code's skip factor `SKIP_SAMPLES = 4`. -/
theorem fft_decimation (k : ℕ) :
    SKIP_SAMPLES = 4 ∧ (fft_reads k).2 = k / SKIP_SAMPLES ∧
      (fft_reads (k + SKIP_SAMPLES)).2 = (fft_reads k).2 + 1 := by
  refine ⟨rfl, ?_, ?_⟩
  · rw [fft_reads_eq]
  · rw [fft_reads_eq, fft_reads_eq]
    show (k + 4) / 4 = k / 4 + 1
    omega

/-- C6: with the 256-sample buffer and the table topping out at 14000 Hz,
every bin index read by the band-mapping loops is inside the magnitude
array bounds `[0, NYQUIST_BIN)` iff the sample rate exceeds 28000 Hz; for
any sample rate of 28000 Hz or below some read index is at or past
`NYQUIST_BIN` (the code checks no such precondition). -/
theorem fft_bins_bounded_iff (sr : ℕ) (hsr : 0 < sr) :
    (∀ j ∈ accessedBins sr, j < NYQUIST_BIN) ↔ 28000 < sr := by
  have hN : NYQUIST_BIN = 128 := rfl
  constructor
  · intro h
    by_contra hle
    push_neg at hle
    have hb6 : 128 ≤ binIndex sr 14000 := by
      rw [binIndex]
      calc (128 : ℕ) = 3584000 / 28000 := by norm_num
        _ ≤ 3584000 / sr := Nat.div_le_div_left hle hsr
        _ = 14000 * FRAMES_PER_BUFFER / sr := by norm_num [FRAMES_PER_BUFFER]
    have hb0 : binIndex sr 60 < binIndex sr 14000 := by
      rw [binIndex, binIndex]
      have h1 : (60 * FRAMES_PER_BUFFER + sr) / sr ≤ 14000 * FRAMES_PER_BUFFER / sr :=
        Nat.div_le_div_right (by simp only [FRAMES_PER_BUFFER]; omega)
      rw [Nat.add_div_right _ hsr] at h1
      omega
    have hmem : binIndex sr 14000 ∈ accessedBins sr :=
      (mem_accessedBins sr _).mpr ⟨hb0, Or.inl le_rfl⟩
    have := h _ hmem
    omega
  · intro h j hj
    rw [mem_accessedBins] at hj
    have hb6 : binIndex sr 14000 ≤ 127 := by
      rw [binIndex]
      calc 14000 * FRAMES_PER_BUFFER / sr ≤ 3584000 / 28001 := by
            rw [show 14000 * FRAMES_PER_BUFFER = 3584000 from rfl]
            exact Nat.div_le_div_left h (by norm_num)
        _ = 127 := by norm_num
    omega

/-- C6 witness: at sample rate 44100 all scanned bins are in bounds. -/
theorem fft_bins_bounded_iff_witness :
    0 < 44100 ∧ ((∀ j ∈ accessedBins 44100, j < NYQUIST_BIN) ↔ 28000 < 44100) :=
  ⟨by decide, fft_bins_bounded_iff 44100 (by decide)⟩

/-- C10: every bin index scanned by any band loop is strictly above the
first boundary's bin index — in particular strictly positive, so bin 0
(the DC component) and the bins at or below `bin(boundary[0])` contribute
to no emitted band value. -/
theorem fft_dc_bin_never_pooled (sr j : ℕ) (hj : j ∈ accessedBins sr) :
    binIndex sr (FREQUENCY_RANGES.getD 0 0) < j ∧ 0 < j := by
  have h := (mem_accessedBins sr j).mp hj
  exact ⟨h.1, by omega⟩

/-- C10 witness: bin 1 is scanned at sample rate 44100, and lies strictly
above `bin(60) = 0`. -/
theorem fft_dc_bin_never_pooled_witness :
    (1 ∈ accessedBins 44100) ∧
      (binIndex 44100 (FREQUENCY_RANGES.getD 0 0) < 1 ∧ 0 < 1) :=
  ⟨by decide, fft_dc_bin_never_pooled 44100 1 (by decide)⟩

/-- C3 counterexample: on the frame whose interleaved position 1 (the
right channel of sample position 0) is 2 and every other position 0, the
code's downmix differs from the claimed two-channel average — the code
produces `left[0]/2 = 0` where the average is `(0 + 2)/2 = 1`. -/
theorem fft_downmix_not_average_cx : samples inpC3 ≠ samples_spec inpC3 := by
  intro h
  have h0 := congrArg (fun l => l.getD 0 0) h
  simp only [samples, samples_spec, List.getD_eq_getElem?_getD, List.getElem?_map,
    List.getElem?_range (show 0 < FRAMES_PER_BUFFER by norm_num [FRAMES_PER_BUFFER]),
    Option.map_some', Option.getD_some] at h0
  norm_num [inpC3] at h0

/-- C3 (amended): the downmixed sample fed to the transform at position
`i` is half the left interleaved channel sample, `input_data[i * 2] / 2`;
the right channel is not read. -/
theorem fft_downmix_left_only (input_data : ℕ → ℚ) (i : ℕ)
    (h : i < FRAMES_PER_BUFFER) :
    (samples input_data).getD i 0 = input_data (i * 2) / 2 := by
  simp only [samples, List.getD_eq_getElem?_getD, List.getElem?_map,
    List.getElem?_range h, Option.map_some', Option.getD_some]

/-- C3 witness: position 3 of the concrete frame `inpC3`. -/
theorem fft_downmix_left_only_witness :
    3 < FRAMES_PER_BUFFER ∧ (samples inpC3).getD 3 0 = inpC3 (3 * 2) / 2 :=
  ⟨by decide, fft_downmix_left_only inpC3 3 (by decide)⟩

/-! ## Render smoothing (C4) -/

theorem ratTrunc_eq_floor {q : ℚ} (h : 0 ≤ q) : ratTrunc q = ⌊q⌋ := by
  rw [ratTrunc, Rat.floor_def]
  exact Int.tdiv_eq_ediv (Rat.num_nonneg.mpr h) (Int.natCast_nonneg _)

theorem ratTrunc_eq_ceil {q : ℚ} (h : q ≤ 0) : ratTrunc q = ⌈q⌉ := by
  have h2 : (0 : ℚ) ≤ -q := neg_nonneg.mpr h
  have hfl : ratTrunc (-q) = ⌊-q⌋ := ratTrunc_eq_floor h2
  rw [ratTrunc, Rat.neg_num, Rat.neg_den, Int.neg_tdiv, Int.floor_neg] at hfl
  rw [ratTrunc]
  omega

theorem ratTrunc_intCast (n : ℤ) : ratTrunc (n : ℚ) = n := by
  rcases le_or_lt 0 ((n : ℚ)) with h | h
  · rw [ratTrunc_eq_floor h, Int.floor_intCast]
  · rw [ratTrunc_eq_ceil h.le, Int.ceil_intCast]

theorem ratTrunc_between {v : ℚ} {a b : ℤ} (ha : (a : ℚ) ≤ v) (hb : v ≤ (b : ℚ)) :
    a ≤ ratTrunc v ∧ ratTrunc v ≤ b := by
  rcases le_or_lt 0 v with h | h
  · rw [ratTrunc_eq_floor h]
    refine ⟨Int.le_floor.mpr ha, ?_⟩
    have := Int.floor_le_floor hb
    rwa [Int.floor_intCast] at this
  · rw [ratTrunc_eq_ceil h.le]
    refine ⟨?_, Int.ceil_le.mpr hb⟩
    have := Int.ceil_le_ceil ha
    rwa [Int.ceil_intCast] at this

/-- Single-step monotonicity without overshoot: the updated height stays
between the current height and the target. -/
theorem render_step_between (f : ℚ) (hf : 1 ≤ f) (t c : ℤ) :
    (c ≤ t → c ≤ render_step f t c ∧ render_step f t c ≤ t) ∧
      (t ≤ c → t ≤ render_step f t c ∧ render_step f t c ≤ c) := by
  have hf0 : (0 : ℚ) < f := lt_of_lt_of_le one_pos hf
  constructor
  · intro h
    have hct : (c : ℚ) ≤ (t : ℚ) := by exact_mod_cast h
    have hd : (0 : ℚ) ≤ (t : ℚ) - c := by linarith
    have h1 : (0 : ℚ) ≤ ((t : ℚ) - c) / f := div_nonneg hd hf0.le
    have h2 : ((t : ℚ) - c) / f ≤ (t : ℚ) - c := div_le_self hd hf
    exact ratTrunc_between (by linarith) (by linarith)
  · intro h
    have hct : (t : ℚ) ≤ (c : ℚ) := by exact_mod_cast h
    have hd : (0 : ℚ) ≤ (c : ℚ) - t := by linarith
    have h1 : (0 : ℚ) ≤ ((c : ℚ) - t) / f := div_nonneg hd hf0.le
    have h2 : ((c : ℚ) - t) / f ≤ (c : ℚ) - t := div_le_self hd hf
    have hneg : ((t : ℚ) - c) / f = -(((c : ℚ) - t) / f) := by ring
    exact ratTrunc_between (by rw [hneg]; linarith) (by rw [hneg]; linarith)

/-- A fixed point of the smoothing update lies strictly within `fps_diff`
of the target. -/
theorem render_step_fixed_close (f : ℚ) (hf : 1 ≤ f) (t c : ℤ)
    (hfix : render_step f t c = c) : |(t : ℚ) - (c : ℚ)| < f := by
  have hf0 : (0 : ℚ) < f := lt_of_lt_of_le one_pos hf
  rcases lt_trichotomy c t with hlt | rfl | hlt
  · have hd : (0 : ℚ) < (t : ℚ) - c := by
      have : (c : ℚ) < (t : ℚ) := by exact_mod_cast hlt
      linarith
    have hstep : (0 : ℚ) < ((t : ℚ) - c) / f := div_pos hd hf0
    rcases le_or_lt 0 ((c : ℚ) + ((t : ℚ) - c) / f) with hv | hv
    · rw [render_step, ratTrunc_eq_floor hv] at hfix
      have hiff := Int.floor_eq_iff.mp hfix
      have hlt1 : ((t : ℚ) - c) / f < 1 := by
        have := hiff.2
        push_cast at this
        linarith
      have : (t : ℚ) - c < f := (div_lt_one hf0).mp hlt1
      rw [abs_of_pos hd]
      exact this
    · rw [render_step, ratTrunc_eq_ceil hv.le] at hfix
      have hle := Int.le_ceil ((c : ℚ) + ((t : ℚ) - c) / f)
      rw [hfix] at hle
      linarith
  · rw [sub_self, abs_zero]
    exact hf0
  · have hd : (0 : ℚ) < (c : ℚ) - t := by
      have : (t : ℚ) < (c : ℚ) := by exact_mod_cast hlt
      linarith
    have hneg : ((t : ℚ) - c) / f = -(((c : ℚ) - t) / f) := by ring
    have hstep : (0 : ℚ) < ((c : ℚ) - t) / f := div_pos hd hf0
    rcases le_or_lt 0 ((c : ℚ) + ((t : ℚ) - c) / f) with hv | hv
    · rw [render_step, ratTrunc_eq_floor hv] at hfix
      have hiff := Int.floor_eq_iff.mp hfix
      have := hiff.1
      rw [hneg] at this
      linarith
    · rw [render_step, ratTrunc_eq_ceil hv.le] at hfix
      have hiff := Int.ceil_eq_iff.mp hfix
      have hlt1 : ((c : ℚ) - t) / f < 1 := by
        have := hiff.1
        rw [hneg] at this
        linarith
      have : (c : ℚ) - t < f := (div_lt_one hf0).mp hlt1
      rw [abs_sub_comm, abs_of_pos hd]
      exact this

/-- A non-fixed step strictly decreases the integer distance to the
target. -/
theorem render_step_progress (f : ℚ) (hf : 1 ≤ f) (t c : ℤ)
    (hne : render_step f t c ≠ c) :
    (t - render_step f t c).natAbs < (t - c).natAbs := by
  have h := render_step_between f hf t c
  rcases le_total c t with hct | hct
  · have := h.1 hct
    omega
  · have := h.2 hct
    omega

theorem render_step_self (f : ℚ) (t : ℤ) : render_step f t t = t := by
  rw [render_step, sub_self, zero_div, add_zero, ratTrunc_intCast]

theorem render_converges_aux (f : ℚ) (hf : 1 ≤ f) (t : ℤ) :
    ∀ m c, (t - c).natAbs ≤ m →
      ∃ N c', (render_step f t)^[N] c = c' ∧ render_step f t c' = c' ∧
        ∀ n, N ≤ n → (render_step f t)^[n] c = c' := by
  intro m
  induction m with
  | zero =>
    intro c hc
    have hct : c = t := by omega
    subst hct
    exact ⟨0, c, rfl, render_step_self f c,
      fun n _ => Function.iterate_fixed (render_step_self f c) n⟩
  | succ m ih =>
    intro c hc
    by_cases hfix : render_step f t c = c
    · exact ⟨0, c, rfl, hfix, fun n _ => Function.iterate_fixed hfix n⟩
    · have hlt := render_step_progress f hf t c hfix
      obtain ⟨N, c', h1, h2, h3⟩ := ih (render_step f t c) (by omega)
      refine ⟨N + 1, c', ?_, h2, ?_⟩
      · rw [Function.iterate_succ_apply]
        exact h1
      · intro n hn
        obtain ⟨n', rfl⟩ : ∃ n', n = n' + 1 := ⟨n - 1, by omega⟩
        rw [Function.iterate_succ_apply]
        exact h3 n' (by omega)

/-- C4 (amended): with `fps_diff ≥ 1` and a constant target, each update
moves the displayed height monotonically toward the target and never
overshoots; the sequence of heights reaches, in finitely many ticks, a
fixed height at which it stays forever — but because the C code stores
heights as `int` (truncating the update toward zero), that limit is only
guaranteed to lie strictly within `fps_diff` of the target, not to equal
the target. -/
theorem render_smoothing (f : ℚ) (t c : ℤ) (hf : 1 ≤ f) :
    (c ≤ t → c ≤ render_step f t c ∧ render_step f t c ≤ t) ∧
      (t ≤ c → t ≤ render_step f t c ∧ render_step f t c ≤ c) ∧
      (render_step f t c = c → |(t : ℚ) - (c : ℚ)| < f) ∧
      ∃ N c', (render_step f t)^[N] c = c' ∧ render_step f t c' = c' ∧
        |(t : ℚ) - (c' : ℚ)| < f ∧ ∀ n, N ≤ n → (render_step f t)^[n] c = c' := by
  obtain ⟨N, c', h1, h2, h3⟩ :=
    render_converges_aux f hf t ((t - c).natAbs) c le_rfl
  exact ⟨(render_step_between f hf t c).1, (render_step_between f hf t c).2,
    render_step_fixed_close f hf t c,
    N, c', h1, h2, render_step_fixed_close f hf t c' h2, h3⟩

/-- C4 counterexample: at sample rate 30720 the code's smoothing divisor
is `fps_diff = 60 * (256/30720) * 4 = 2 ≥ 1`; with target height 1 held
constant and current height 0, the update returns 0 — the start value is
a fixed point distinct from the target, so the displayed height never
converges to the target. -/
theorem render_no_target_convergence_cx :
    fps_diff 30720 = 2 ∧ render_step (fps_diff 30720) 1 0 = 0 ∧ (0 : ℤ) ≠ 1 := by
  have h2 : fps_diff 30720 = 2 := by
    rw [fps_diff, FRAMES_PER_BUFFER, SKIP_SAMPLES, FPS]
    norm_num
  refine ⟨h2, ?_, by decide⟩
  rw [h2, render_step]
  have harg : ((0 : ℤ) : ℚ) + ((((1 : ℤ) : ℚ)) - ((0 : ℤ) : ℚ)) / 2 = 1 / 2 := by
    norm_num
  rw [harg, ratTrunc_eq_floor (by norm_num), Int.floor_eq_iff]
  norm_num

/-! ## Audio driver (C7, C8) and cancellation (C9) -/

/-- C7 counterexample: with 2 devices, the out-of-range index `-1` is not
rejected — the guard `device_index >= num_devices` only checks the upper
bound, so the call reports success and updates the selection to `-1`
(the C code then reads `devices[-1]`), instead of failing and leaving the
state unchanged. -/
theorem set_selected_device_negative_cx :
    (audio_driver_set_selected_device ⟨fun _ => none, fun _ => none⟩
        ⟨2, 0, 0, none⟩ (-1)).1 = SetDeviceOutcome.device_changed ∧
      (audio_driver_set_selected_device ⟨fun _ => none, fun _ => none⟩
        ⟨2, 0, 0, none⟩ (-1)).2.1.selected_index = -1 ∧
      ¬ (0 ≤ (-1 : ℤ)) := by decide

/-- C7 (amended): `set_selected_device` rejects exactly the indices
`≥ num_devices` — reporting the out-of-range error and leaving the whole
driver state (selection fields and stream) unchanged — while any index
`< num_devices`, including un-validated negative ones, updates both
selection fields and closes then re-opens the stream against the newly
selected index (started stream on the new device when the backend
succeeds). -/
theorem set_selected_device_spec (b : PaBackend) (s : AudioDriverState) (idx : ℤ) :
    (s.num_devices ≤ idx →
      audio_driver_set_selected_device b s idx =
        (.out_of_range, s, ["ERROR: Device index is out of range!"])) ∧
      (idx < s.num_devices →
        (audio_driver_set_selected_device b s idx).1 = .device_changed ∧
          (audio_driver_set_selected_device b s idx).2.1.selected_index = idx ∧
          (audio_driver_set_selected_device b s idx).2.1.selected_device = idx ∧
          (b.open_err idx = none → b.start_err idx = none →
            (audio_driver_set_selected_device b s idx).2.1.stream = some (idx, true))) := by
  obtain ⟨nd, si, sd, st⟩ := s
  constructor
  · intro h
    rw [audio_driver_set_selected_device, if_pos h]
  · intro h
    cases st <;> cases hop : b.open_err idx <;> cases hst : b.start_err idx <;>
      simp [audio_driver_set_selected_device, if_neg (not_le.mpr h),
        audio_driver_close_stream, audio_driver_open_stream, hop, hst]

/-- C7 witness: out-of-range index 5 (with 2 devices) is rejected with the
state unchanged; in-range index 1 selects device 1 and re-opens the stream
against it. -/
theorem set_selected_device_spec_witness :
    (audio_driver_set_selected_device ⟨fun _ => none, fun _ => none⟩
        ⟨2, 0, 0, none⟩ 5 =
      (.out_of_range, ⟨2, 0, 0, none⟩, ["ERROR: Device index is out of range!"])) ∧
      ((audio_driver_set_selected_device ⟨fun _ => none, fun _ => none⟩
          ⟨2, 0, 0, none⟩ 1).1 = .device_changed ∧
        (audio_driver_set_selected_device ⟨fun _ => none, fun _ => none⟩
          ⟨2, 0, 0, none⟩ 1).2.1.selected_index = 1 ∧
        (audio_driver_set_selected_device ⟨fun _ => none, fun _ => none⟩
          ⟨2, 0, 0, none⟩ 1).2.1.selected_device = 1 ∧
        ((fun _ : ℤ => (none : Option String)) 1 = none →
          (fun _ : ℤ => (none : Option String)) 1 = none →
          (audio_driver_set_selected_device ⟨fun _ => none, fun _ => none⟩
            ⟨2, 0, 0, none⟩ 1).2.1.stream = some (1, true))) :=
  ⟨(set_selected_device_spec ⟨fun _ => none, fun _ => none⟩ ⟨2, 0, 0, none⟩ 5).1
      (by decide),
    (set_selected_device_spec ⟨fun _ => none, fun _ => none⟩ ⟨2, 0, 0, none⟩ 1).2
      (by decide)⟩

/-- C8 counterexample: a backend whose open succeeds but whose start fails
(`"boom"`).  The failure is reported, but the driver does not return to
the no-stream state: it retains the opened, never-started stream. -/
theorem open_stream_retains_stream_cx :
    (audio_driver_open_stream ⟨fun _ => none, fun _ => some "boom"⟩
        ⟨2, 0, 0, none⟩).1.stream = some (0, false) ∧
      (audio_driver_open_stream ⟨fun _ => none, fun _ => some "boom"⟩
        ⟨2, 0, 0, none⟩).2 ≠ [] := by
  constructor
  · rfl
  · intro h
    simp [audio_driver_open_stream, audio_driver_close_stream] at h

/-- C8 (amended): `open_stream` closes a previously open stream first and
reports every open/start failure with the backend's error text; after a
failed `Pa_OpenStream` the driver has no stream (and the unconditional
`Pa_StartStream` on the null stream produces a second report), but after
a failed `Pa_StartStream` the driver is *not* returned to the no-stream
state — it retains the opened, unstarted stream. -/
theorem open_stream_spec (b : PaBackend) (s : AudioDriverState) :
    (∀ e, b.open_err s.selected_index = some e →
      (audio_driver_open_stream b s).1.stream = none ∧
        (audio_driver_open_stream b s).2 =
          ["ERROR: Could not open PortAudio input stream: " ++ e,
           "ERROR: Could not start PortAudio input stream: Invalid stream pointer"]) ∧
      (∀ e, b.open_err s.selected_index = none →
        b.start_err s.selected_index = some e →
        (audio_driver_open_stream b s).1.stream = some (s.selected_index, false) ∧
          (audio_driver_open_stream b s).2 =
            ["ERROR: Could not start PortAudio input stream: " ++ e]) ∧
      (b.open_err s.selected_index = none → b.start_err s.selected_index = none →
        (audio_driver_open_stream b s).1.stream = some (s.selected_index, true) ∧
          (audio_driver_open_stream b s).2 = []) := by
  obtain ⟨nd, si, sd, st⟩ := s
  refine ⟨?_, ?_, ?_⟩
  · intro e hop
    cases st <;> simp [audio_driver_open_stream, audio_driver_close_stream, hop]
  · intro e hop hst
    cases st <;> simp [audio_driver_open_stream, audio_driver_close_stream, hop, hst]
  · intro hop hst
    cases st <;> simp [audio_driver_open_stream, audio_driver_close_stream, hop, hst]

/-- C8 witness: concrete backend with failing start (`"boom"`). -/
theorem open_stream_spec_witness :
    (audio_driver_open_stream ⟨fun _ => none, fun _ => some "boom"⟩
        ⟨2, 0, 0, none⟩).1.stream = some (0, false) ∧
      (audio_driver_open_stream ⟨fun _ => none, fun _ => some "boom"⟩
        ⟨2, 0, 0, none⟩).2 =
        ["ERROR: Could not start PortAudio input stream: " ++ "boom"] :=
  (open_stream_spec ⟨fun _ => none, fun _ => some "boom"⟩ ⟨2, 0, 0, none⟩).2.1
    "boom" rfl rfl

/-- C9: for every input-queue state, counter value and cancellation
schedule, once the token reads cancelled at the top of iteration `k` the
worker loop has exited: it runs no iteration past `k` — cancellation is
observed at the next top-of-loop check and the loop terminates within at
most one further iteration. -/
theorem fft_loop_cancellation (spectrum : List ℚ → ℕ → ℚ) (sr : ℕ)
    (cancel : ℕ → Bool) (s : FFTLoopState) (k : ℕ) (hk : cancel k = true) :
    ∀ n, k < n → fft_loop_run spectrum sr cancel s n = none := by
  intro n
  induction n with
  | zero => intro h; exact absurd h (Nat.not_lt_zero k)
  | succ n ih =>
    intro hn
    rcases Nat.lt_succ_iff_lt_or_eq.mp hn with h | h
    · rw [fft_loop_run, ih h]
    · subst h
      rw [fft_loop_run]
      cases hr : fft_loop_run spectrum sr cancel s k with
      | none => rfl
      | some s' => simp [fft_loop_step, hk]

/-- C9 witness: with the token cancelled from the start, the loop has
exited by iteration 1 (empty queue, fresh counter, any spectrum). -/
theorem fft_loop_cancellation_witness :
    ((fun _ : ℕ => true) 0 = true) ∧
      fft_loop_run (fun _ _ => 0) 44100 (fun _ => true) ⟨0, [], []⟩ 1 = none :=
  ⟨rfl, fft_loop_cancellation (fun _ _ => 0) 44100 (fun _ => true) ⟨0, [], []⟩ 0
    rfl 1 (by decide)⟩

/-- C4 witness: `fps_diff = 2`, target 1, current 0. -/
theorem render_smoothing_witness :
    (1 : ℚ) ≤ 2 ∧
      (((0 : ℤ) ≤ 1 → (0 : ℤ) ≤ render_step 2 1 0 ∧ render_step 2 1 0 ≤ 1) ∧
        ((1 : ℤ) ≤ 0 → (1 : ℤ) ≤ render_step 2 1 0 ∧ render_step 2 1 0 ≤ 0) ∧
        (render_step 2 1 0 = 0 → |((1 : ℤ) : ℚ) - ((0 : ℤ) : ℚ)| < 2) ∧
        ∃ N c', (render_step 2 1)^[N] 0 = c' ∧ render_step 2 1 c' = c' ∧
          |((1 : ℤ) : ℚ) - ((c' : ℤ) : ℚ)| < 2 ∧
          ∀ n, N ≤ n → (render_step 2 1)^[n] 0 = c') :=
  ⟨by decide, render_smoothing 2 1 0 (by decide)⟩

end Audiolize
